import Mathlib

/-!
Shallow embedding of `src/extra/genfreqs.c` (brute force search of optimal
DIV and TOP register values for RP2040 PWM).

The C program computes everything in `double`; here the arithmetic is
modelled with exact real numbers, which is the idealized semantics the
specification describes.  All the structural properties proved below
(minimum tracking, tie behaviour, bounds, report structure) depend only on
the field structure of that arithmetic, not on rounding.

The C search is three nested loops:

  for div in [1<<4, 1<<12)        -- outer
    for top in [0, 65536)         -- middle
      for each note n             -- inner
        err := |n.freq - out_freq(div, top)|
        if err < n.err then update all best fields of n

Each note is updated independently of the others, so per note the
sequential semantics is a left fold of the conditional update over the
list of candidate pairs (div, top) in lexicographic order; that fold is
`runNote` below, and `candidates` is exactly that list.
-/

noncomputable section

namespace Genfreqs

/-- The macro `#define SYS_FREQ_HZ 280000000`. -/
def SYS_FREQ_HZ : ℕ := 280000000

/-- The macro `#define BASE_NOTE (69-24)`. -/
def BASE_NOTE : ℤ := 69 - 24

/-- The macro `#define OCTAVES 5`. -/
def OCTAVES : ℕ := 5

/-- The macro `#define NOTE_CNT (OCTAVES * 12)`. -/
def NOTE_CNT : ℕ := OCTAVES * 12

/-- The `note` struct of genfreqs.c. -/
structure Note where
  freq : ℝ
  top : ℕ
  div : ℕ
  divf : ℝ
  out_freq : ℝ
  err : ℝ

/-- The target formula `n->freq = 440. * pow(2, (i + BASE_NOTE - 69)/12.)`: the numerator
`i + BASE_NOTE - 69` is integer arithmetic, the division is by the real 12. -/
def targetFreq (i : ℕ) : ℝ := 440 * (2 : ℝ) ^ ((((i : ℤ) + BASE_NOTE - 69 : ℤ) : ℝ) / 12)

/-- The initialization loop of `main`: `freq` from the note formula,
`err = 9999999999`, `out_freq = -1`; the remaining fields are zero because
`notes` is a zero-initialized global array. -/
def initNote (i : ℕ) : Note :=
  { freq := targetFreq i, top := 0, div := 0, divf := 0, out_freq := -1, err := 9999999999 }

/-- The divisor `double divf = (double)div * 0.0625;`. -/
def divfOf (d : ℕ) : ℝ := (d : ℝ) * 0.0625

/-- The candidate output `freq_div = SYS_FREQ_HZ / divf; out_freq = freq_div / (top + 1)`. -/
def outFreq (d t : ℕ) : ℝ := (SYS_FREQ_HZ : ℝ) / divfOf d / ((t : ℝ) + 1)

/-- The absolute error of candidate pair `c = (div, top)` against target `f`. -/
def errOf (f : ℝ) (c : ℕ × ℕ) : ℝ := |f - outFreq c.1 c.2|

/-- The body of the innermost loop: `err = fabs(n->freq - out_freq);
if (err < n->err) { update all best fields }`. -/
def updateNote (d t : ℕ) (n : Note) : Note :=
  if |n.freq - outFreq d t| < n.err then
    { freq := n.freq, top := t, div := d, divf := divfOf d,
      out_freq := outFreq d t, err := |n.freq - outFreq d t| }
  else n

/-- Folding the conditional update of one note over a list of candidate
pairs: the per-note view of the search loops. -/
def runNote (n : Note) (cs : List (ℕ × ℕ)) : Note :=
  cs.foldl (fun m c => updateNote c.1 c.2 m) n

/-- The full candidate space in loop order: `div` from `1<<4 = 16` up to
(excluding) `1<<12 = 4096`, and for each, `top` from 0 up to (excluding)
65536. -/
def candidates : List (ℕ × ℕ) :=
  (List.range' 16 4080).flatMap (fun d => (List.range 65536).map (fun t => (d, t)))

/-- The final state of note `i` after the search completes. -/
def finalNote (i : ℕ) : Note := runNote (initNote i) candidates

/-- One line of the first reporting loop: either the `"no config"` line or
the full diagnostic line with the note's fields. -/
inductive ReportLine where
  | noConfig (i : ℕ)
  | diag (i : ℕ) (freq out_freq err : ℝ) (d : ℕ) (divf : ℝ) (top : ℕ)

/-- The report step `if (n->out_freq == -1) { printf("%u: no config\n", i); continue; }
printf(..., i, n->freq, n->out_freq, n->err, n->div, n->divf, n->top)`. -/
def reportLine (i : ℕ) (n : Note) : ReportLine :=
  if n.out_freq = -1 then ReportLine.noConfig i
  else ReportLine.diag i n.freq n.out_freq n.err n.div n.divf n.top

/-- The first reporting loop over a table of notes: one line per index
`0 .. NOTE_CNT-1`, never stopping early. -/
def reportLinesOf (f : ℕ → Note) : List ReportLine :=
  (List.range NOTE_CNT).map (fun i => reportLine i (f i))

/-- One entry of the emitted `pwm_cfgs` table: the hex pair printed for a
note, whether it is followed by a comma (`i < NOTE_CNT-1`) and whether a
line break follows (`i % 7 == 6 && i < NOTE_CNT-1`). -/
structure TableItem where
  pair : ℕ × ℕ
  comma : Bool
  brk : Bool

/-- The table entry `printf("(0x%x,0x%x)", n->div, n->top)` plus the comma and line-break
conditions of the table loop. -/
def tableItem (i : ℕ) (n : Note) : TableItem :=
  { pair := (n.div, n.top),
    comma := decide (i < NOTE_CNT - 1),
    brk := decide (i % 7 = 6) && decide (i < NOTE_CNT - 1) }

/-- The second output block: the generated-by comment line and the
`pwm_cfgs` items in note order. -/
structure TableBlock where
  header : String
  items : List TableItem

/-- The header line `printf("# This table is generated using genfreqs.c\n")` followed by
the table loop over all notes. -/
def pwmBlock : TableBlock :=
  { header := "# This table is generated using genfreqs.c",
    items := (List.range NOTE_CNT).map (fun i => tableItem i (finalNote i)) }

/-! ### Basic facts about the update step -/

theorem updateNote_freq (d t : ℕ) (n : Note) : (updateNote d t n).freq = n.freq := by
  unfold updateNote
  split <;> rfl

theorem updateNote_of_not_lt (d t : ℕ) (n : Note)
    (h : ¬ |n.freq - outFreq d t| < n.err) : updateNote d t n = n := by
  unfold updateNote
  rw [if_neg h]

theorem updateNote_err (d t : ℕ) (n : Note) :
    (updateNote d t n).err = min n.err (errOf n.freq (d, t)) := by
  unfold updateNote errOf
  rcases lt_or_le |n.freq - outFreq d t| n.err with h | h
  · rw [if_pos h, min_eq_right h.le]
  · rw [if_neg (not_lt.mpr h), min_eq_left h]

theorem runNote_nil (n : Note) : runNote n [] = n := rfl

theorem runNote_cons (n : Note) (c : ℕ × ℕ) (cs : List (ℕ × ℕ)) :
    runNote n (c :: cs) = runNote (updateNote c.1 c.2 n) cs := rfl

theorem runNote_freq (cs : List (ℕ × ℕ)) (n : Note) : (runNote n cs).freq = n.freq := by
  induction cs generalizing n with
  | nil => rfl
  | cons c cs ih => rw [runNote_cons, ih, updateNote_freq]

/-- The error field evolves exactly as a fold of `min` over the candidate
errors. -/
theorem runNote_err (cs : List (ℕ × ℕ)) (n : Note) :
    (runNote n cs).err = cs.foldl (fun a c => min a (errOf n.freq c)) n.err := by
  induction cs generalizing n with
  | nil => rfl
  | cons c cs ih =>
    rw [runNote_cons, ih, updateNote_freq, updateNote_err, List.foldl_cons]

theorem foldl_min_le_init (g : ℕ × ℕ → ℝ) (cs : List (ℕ × ℕ)) :
    ∀ a : ℝ, cs.foldl (fun x c => min x (g c)) a ≤ a := by
  induction cs with
  | nil => intro a; exact le_refl a
  | cons c cs ih =>
    intro a
    calc (c :: cs).foldl (fun x c => min x (g c)) a
        = cs.foldl (fun x c => min x (g c)) (min a (g c)) := by rw [List.foldl_cons]
      _ ≤ min a (g c) := ih _
      _ ≤ a := min_le_left _ _

theorem foldl_min_le_mem (g : ℕ × ℕ → ℝ) (cs : List (ℕ × ℕ)) (c : ℕ × ℕ)
    (hc : c ∈ cs) : ∀ a : ℝ, cs.foldl (fun x c => min x (g c)) a ≤ g c := by
  induction cs with
  | nil => exact absurd hc (List.not_mem_nil c)
  | cons c' cs ih =>
    intro a
    rcases List.mem_cons.mp hc with h | h
    · subst h
      calc (c :: cs).foldl (fun x c => min x (g c)) a
          = cs.foldl (fun x c => min x (g c)) (min a (g c)) := by rw [List.foldl_cons]
        _ ≤ min a (g c) := foldl_min_le_init g cs _
        _ ≤ g c := min_le_right _ _
    · rw [List.foldl_cons]
      exact ih h _

theorem runNote_err_le_init (cs : List (ℕ × ℕ)) (n : Note) : (runNote n cs).err ≤ n.err := by
  rw [runNote_err]
  exact foldl_min_le_init _ cs n.err

theorem runNote_err_le_mem (cs : List (ℕ × ℕ)) (n : Note) (c : ℕ × ℕ) (hc : c ∈ cs) :
    (runNote n cs).err ≤ errOf n.freq c := by
  rw [runNote_err]
  exact foldl_min_le_mem _ cs c hc n.err

/-- After the fold, either nothing ever fired (the note is untouched), or
the best fields are exactly those written for some candidate of the list. -/
theorem runNote_attain (cs : List (ℕ × ℕ)) (n : Note) :
    runNote n cs = n ∨
      ∃ c ∈ cs, (runNote n cs).err = errOf n.freq c ∧
        (runNote n cs).out_freq = outFreq c.1 c.2 ∧
        (runNote n cs).div = c.1 ∧ (runNote n cs).top = c.2 ∧
        (runNote n cs).divf = divfOf c.1 := by
  induction cs generalizing n with
  | nil => exact Or.inl rfl
  | cons c cs ih =>
    rw [runNote_cons]
    by_cases h : |n.freq - outFreq c.1 c.2| < n.err
    · have hstep : updateNote c.1 c.2 n =
          { freq := n.freq, top := c.2, div := c.1, divf := divfOf c.1,
            out_freq := outFreq c.1 c.2, err := |n.freq - outFreq c.1 c.2| } := by
        unfold updateNote
        rw [if_pos h]
      rcases ih (updateNote c.1 c.2 n) with h1 | h1
      · refine Or.inr ⟨c, List.mem_cons_self c cs, ?_⟩
        rw [h1, hstep]
        exact ⟨rfl, rfl, rfl, rfl, rfl⟩
      · obtain ⟨c', hc', he, ho, hd, ht, hf⟩ := h1
        refine Or.inr ⟨c', List.mem_cons_of_mem c hc', ?_⟩
        rw [updateNote_freq] at he
        exact ⟨he, ho, hd, ht, hf⟩
    · rw [updateNote_of_not_lt c.1 c.2 n h]
      rcases ih n with h1 | h1
      · exact Or.inl h1
      · obtain ⟨c', hc', hrest⟩ := h1
        exact Or.inr ⟨c', List.mem_cons_of_mem c hc', hrest⟩

/-! ### The candidate space and numeric facts -/

theorem mem_candidates (d t : ℕ) :
    (d, t) ∈ candidates ↔ 16 ≤ d ∧ d < 4096 ∧ t < 65536 := by
  unfold candidates
  rw [List.mem_flatMap]
  constructor
  · rintro ⟨a, ha, hm⟩
    rw [List.mem_map] at hm
    obtain ⟨b, hb, hab⟩ := hm
    obtain ⟨h1, h2⟩ := Prod.mk.injEq a b d t ▸ hab
    rw [List.mem_range'_1] at ha
    rw [List.mem_range] at hb
    exact ⟨h1 ▸ ha.1, h1 ▸ ha.2, h2 ▸ hb⟩
  · rintro ⟨h1, h2, h3⟩
    refine ⟨d, ?_, ?_⟩
    · rw [List.mem_range'_1]
      exact ⟨h1, h2⟩
    · rw [List.mem_map]
      exact ⟨t, List.mem_range.mpr h3, rfl⟩

theorem targetFreq_eq (i : ℕ) : targetFreq i = 440 * (2 : ℝ) ^ (((i : ℝ) - 24) / 12) := by
  unfold targetFreq BASE_NOTE
  congr 2
  push_cast
  ring

theorem targetFreq_zero : targetFreq 0 = 110 := by
  rw [targetFreq_eq]
  rw [show (((0 : ℕ) : ℝ) - 24) / 12 = ((-2 : ℤ) : ℝ) by norm_num]
  rw [Real.rpow_intCast]
  norm_num

theorem targetFreq_pos (i : ℕ) : 0 < targetFreq i := by
  rw [targetFreq_eq]
  have := Real.rpow_pos_of_pos (show (0:ℝ) < 2 by norm_num) (((i : ℝ) - 24) / 12)
  linarith

theorem targetFreq_lt (i : ℕ) (h : i < 60) : targetFreq i < 3520 := by
  rw [targetFreq_eq]
  have hexp : ((i : ℝ) - 24) / 12 < ((3 : ℤ) : ℝ) := by
    have : (i : ℝ) < 60 := by exact_mod_cast h
    push_cast
    linarith
  have hlt : (2 : ℝ) ^ (((i : ℝ) - 24) / 12) < (2 : ℝ) ^ (((3 : ℤ) : ℝ)) :=
    (Real.rpow_lt_rpow_left_iff (by norm_num)).mpr hexp
  have h8 : (2 : ℝ) ^ (((3 : ℤ) : ℝ)) = 8 := by
    rw [Real.rpow_intCast]
    norm_num
  rw [h8] at hlt
  linarith

theorem outFreq_16_0 : outFreq 16 0 = 280000000 := by
  unfold outFreq divfOf SYS_FREQ_HZ
  norm_num

theorem outFreq_16_1 : outFreq 16 1 = 140000000 := by
  unfold outFreq divfOf SYS_FREQ_HZ
  norm_num

theorem outFreq_32_0 : outFreq 32 0 = 140000000 := by
  unfold outFreq divfOf SYS_FREQ_HZ
  norm_num

theorem outFreq_pos (d t : ℕ) (hd : 0 < d) : 0 < outFreq d t := by
  unfold outFreq divfOf
  have hd' : (0 : ℝ) < (d : ℝ) := by exact_mod_cast hd
  have h1 : (0 : ℝ) < (d : ℝ) * 0.0625 := by positivity
  have h2 : (0 : ℝ) < (SYS_FREQ_HZ : ℝ) := by unfold SYS_FREQ_HZ; norm_num
  positivity

/-- The very first candidate already has error under the sentinel. -/
theorem errOf_first_lt (i : ℕ) (h : i < 60) : errOf (targetFreq i) (16, 0) < 9999999999 := by
  have h1 := targetFreq_pos i
  have h2 := targetFreq_lt i h
  unfold errOf
  rw [outFreq_16_0, abs_lt]
  constructor <;> linarith

theorem initNote_freq (i : ℕ) : (initNote i).freq = targetFreq i := rfl

theorem initNote_err (i : ℕ) : (initNote i).err = 9999999999 := rfl

theorem first_mem_candidates : ((16 : ℕ), (0 : ℕ)) ∈ candidates := by
  rw [mem_candidates]
  exact ⟨le_refl 16, by norm_num, by norm_num⟩

/-- Some update fires during the search: the final state is not the initial
sentinel state. -/
theorem finalNote_ne_init (i : ℕ) (h : i < 60) : finalNote i ≠ initNote i := by
  intro heq
  have hle : (finalNote i).err ≤ errOf (initNote i).freq (16, 0) :=
    runNote_err_le_mem candidates (initNote i) (16, 0) first_mem_candidates
  rw [heq, initNote_err, initNote_freq] at hle
  exact absurd hle (not_le.mpr (errOf_first_lt i h))

/-- The final best fields of every note come from an actual candidate of
the search space. -/
theorem finalNote_spec (i : ℕ) (h : i < 60) :
    ∃ c ∈ candidates, (finalNote i).err = errOf (targetFreq i) c ∧
      (finalNote i).out_freq = outFreq c.1 c.2 ∧
      (finalNote i).div = c.1 ∧ (finalNote i).top = c.2 ∧
      (finalNote i).divf = divfOf c.1 := by
  rcases runNote_attain candidates (initNote i) with h1 | h1
  · exact absurd h1 (finalNote_ne_init i h)
  · obtain ⟨c, hc, he, hrest⟩ := h1
    rw [initNote_freq] at he
    exact ⟨c, hc, he, hrest⟩

/-! ### Reordering the candidate list -/

theorem foldl_min_perm (g : ℕ × ℕ → ℝ) {cs cs' : List (ℕ × ℕ)} (h : cs.Perm cs') :
    ∀ a : ℝ, cs.foldl (fun x c => min x (g c)) a = cs'.foldl (fun x c => min x (g c)) a := by
  induction h with
  | nil => intro a; rfl
  | cons x h ih =>
    intro a
    rw [List.foldl_cons, List.foldl_cons]
    exact ih _
  | swap x y l =>
    intro a
    rw [List.foldl_cons, List.foldl_cons, List.foldl_cons, List.foldl_cons]
    congr 1
    rw [min_assoc, min_assoc, min_comm (g y) (g x)]
  | trans h1 h2 ih1 ih2 =>
    intro a
    rw [ih1, ih2]

/-! ### A concrete tie: (div=16, top=1) and (div=32, top=0) give the same
output frequency 140000000, so their errors against any target agree -/

theorem upd_16_1_init : updateNote 16 1 (initNote 0) =
    { freq := targetFreq 0, top := 1, div := 16, divf := divfOf 16,
      out_freq := outFreq 16 1, err := |targetFreq 0 - outFreq 16 1| } := by
  have hcond : |(initNote 0).freq - outFreq 16 1| < (initNote 0).err := by
    rw [initNote_freq, initNote_err, targetFreq_zero, outFreq_16_1, abs_lt]
    constructor <;> norm_num
  unfold updateNote
  rw [if_pos hcond, initNote_freq]

theorem upd_32_0_init : updateNote 32 0 (initNote 0) =
    { freq := targetFreq 0, top := 0, div := 32, divf := divfOf 32,
      out_freq := outFreq 32 0, err := |targetFreq 0 - outFreq 32 0| } := by
  have hcond : |(initNote 0).freq - outFreq 32 0| < (initNote 0).err := by
    rw [initNote_freq, initNote_err, targetFreq_zero, outFreq_32_0, abs_lt]
    constructor <;> norm_num
  unfold updateNote
  rw [if_pos hcond, initNote_freq]

theorem tie_not_lt_A :
    ¬ |(updateNote 16 1 (initNote 0)).freq - outFreq 32 0| <
      (updateNote 16 1 (initNote 0)).err := by
  rw [upd_16_1_init]
  show ¬ |targetFreq 0 - outFreq 32 0| < |targetFreq 0 - outFreq 16 1|
  rw [outFreq_16_1, outFreq_32_0]
  exact lt_irrefl _

theorem tie_not_lt_B :
    ¬ |(updateNote 32 0 (initNote 0)).freq - outFreq 16 1| <
      (updateNote 32 0 (initNote 0)).err := by
  rw [upd_32_0_init]
  show ¬ |targetFreq 0 - outFreq 16 1| < |targetFreq 0 - outFreq 32 0|
  rw [outFreq_16_1, outFreq_32_0]
  exact lt_irrefl _

/-! ### Claim theorems -/

/-- C1: after the search completes, each note's `best_error` equals the
absolute difference between its target frequency and the retained output
frequency, and no (divider raw, wrap) pair of the full search space
(raw in [16, 4095], wrap in [0, 65535]) achieves a strictly smaller
absolute error: the retained result is a true minimum. -/
theorem search_exhaustive_min (i : ℕ) (hi : i < 60) (d t : ℕ)
    (hd1 : 16 ≤ d) (hd2 : d ≤ 4095) (ht : t ≤ 65535) :
    (finalNote i).err = |targetFreq i - (finalNote i).out_freq| ∧
    ¬ |targetFreq i - outFreq d t| < (finalNote i).err := by
  obtain ⟨c, hc, he, ho, _, _, _⟩ := finalNote_spec i hi
  constructor
  · rw [he, ho]
    rfl
  · rw [not_lt]
    have hmem : (d, t) ∈ candidates := (mem_candidates d t).mpr ⟨hd1, by omega, by omega⟩
    have hle := runNote_err_le_mem candidates (initNote i) (d, t) hmem
    rw [initNote_freq] at hle
    exact hle

theorem search_exhaustive_min_witness :
    (0 < 60 ∧ 16 ≤ 16 ∧ 16 ≤ 4095 ∧ 0 ≤ 65535) ∧
    ((finalNote 0).err = |targetFreq 0 - (finalNote 0).out_freq| ∧
      ¬ |targetFreq 0 - outFreq 16 0| < (finalNote 0).err) :=
  ⟨by decide, search_exhaustive_min 0 (by decide) 16 0 (by decide) (by decide) (by decide)⟩

/-- C2 counterexample: evaluating the same two candidate pairs in the two
possible orders changes the retained best divider of note 0, because both
pairs produce output frequency 140000000 and thus tie in error, and the
strict comparison keeps whichever came first.  The per-note update rule is
therefore not an order-invariant reduction on the full best-fields. -/
theorem search_order_dependent :
    [((16 : ℕ), (1 : ℕ)), (32, 0)].Perm [(32, 0), (16, 1)] ∧
    (runNote (initNote 0) [(16, 1), (32, 0)]).div = 16 ∧
    (runNote (initNote 0) [(32, 0), (16, 1)]).div = 32 := by
  refine ⟨List.Perm.swap (32, 0) (16, 1) [], ?_, ?_⟩
  · have hA : runNote (initNote 0) [(16, 1), (32, 0)] =
        updateNote 32 0 (updateNote 16 1 (initNote 0)) := rfl
    rw [hA, updateNote_of_not_lt 32 0 _ tie_not_lt_A, upd_16_1_init]
  · have hB : runNote (initNote 0) [(32, 0), (16, 1)] =
        updateNote 16 1 (updateNote 32 0 (initNote 0)) := rfl
    rw [hB, updateNote_of_not_lt 16 1 _ tie_not_lt_B, upd_32_0_init]

/-- C2 (amended): under any reordering of the evaluated candidate pairs
the final `best_error` of a note is unchanged (the error really is a pure
commutative, associative min-reduction); the argmin fields (divider, wrap,
output frequency) are not in general order-invariant when errors tie. -/
theorem search_err_order_invariant (cs cs' : List (ℕ × ℕ)) (h : cs.Perm cs')
    (n : Note) : (runNote n cs).err = (runNote n cs').err := by
  rw [runNote_err, runNote_err]
  exact foldl_min_perm _ h n.err

theorem search_err_order_invariant_witness :
    [((16 : ℕ), (1 : ℕ)), (32, 0)].Perm [(32, 0), (16, 1)] ∧
    (runNote (initNote 0) [(16, 1), (32, 0)]).err =
      (runNote (initNote 0) [(32, 0), (16, 1)]).err :=
  ⟨List.Perm.swap (32, 0) (16, 1) [],
    search_err_order_invariant _ _ (List.Perm.swap (32, 0) (16, 1) []) (initNote 0)⟩

/-- C3: a note is mutated only when the candidate error is strictly below
the current best: whenever the strict comparison fails — in particular on
an exact tie — the note is returned unchanged, so the first-found
candidate wins among equal-error candidates. -/
theorem tie_keeps_best (n : Note) (d t : ℕ)
    (h : ¬ |n.freq - outFreq d t| < n.err) : updateNote d t n = n := by
  unfold updateNote
  rw [if_neg h]

theorem tie_keeps_best_witness :
    (¬ |(updateNote 16 1 (initNote 0)).freq - outFreq 32 0| <
        (updateNote 16 1 (initNote 0)).err) ∧
    updateNote 32 0 (updateNote 16 1 (initNote 0)) = updateNote 16 1 (initNote 0) :=
  ⟨tie_not_lt_A, tie_keeps_best (updateNote 16 1 (initNote 0)) 32 0 tie_not_lt_A⟩

/-- C4: the candidate output frequency is
`clock / (raw * 0.0625) / (wrap + 1)` with clock 280000000 Hz, and the
divisor `raw * 0.0625` equals `raw / 16`. -/
theorem outFreq_formula (d t : ℕ) :
    outFreq d t = 280000000 / ((d : ℝ) * 0.0625) / ((t : ℝ) + 1) ∧
    outFreq d t = 280000000 / ((d : ℝ) / 16) / ((t : ℝ) + 1) := by
  have h16 : (d : ℝ) * 0.0625 = (d : ℝ) / 16 := by
    rw [div_eq_mul_inv]
    norm_num
  constructor
  · unfold outFreq divfOf SYS_FREQ_HZ
    norm_num
  · unfold outFreq divfOf SYS_FREQ_HZ
    rw [h16]
    norm_num

/-- C5: every target frequency follows the equal-tempered formula
`440 * 2 ^ ((i + 45 - 69)/12)` (base offset 45 = 69 - 24), and the note at
index 24 has target frequency exactly 440. -/
theorem targetFreq_formula :
    (∀ i : ℕ, targetFreq i =
      440 * (2 : ℝ) ^ ((((i : ℤ) + 45 - 69 : ℤ) : ℝ) / 12)) ∧
    targetFreq 24 = 440 := by
  constructor
  · intro i
    unfold targetFreq BASE_NOTE
    norm_num
  · rw [targetFreq_eq]
    rw [show (((24 : ℕ) : ℝ) - 24) / 12 = (0 : ℝ) by norm_num]
    rw [Real.rpow_zero]
    norm_num

/-- C6: every retained (divider raw, wrap) pair lies within the search
bounds: raw in [16, 4095] and wrap in [0, 65535]. -/
theorem best_fields_in_bounds (i : ℕ) (hi : i < 60) :
    16 ≤ (finalNote i).div ∧ (finalNote i).div ≤ 4095 ∧ (finalNote i).top ≤ 65535 := by
  obtain ⟨⟨d, t⟩, hc, _, _, hd, ht, _⟩ := finalNote_spec i hi
  obtain ⟨h1, h2, h3⟩ := (mem_candidates d t).mp hc
  rw [hd, ht]
  omega

theorem best_fields_in_bounds_witness :
    (0 < 60) ∧
    (16 ≤ (finalNote 0).div ∧ (finalNote 0).div ≤ 4095 ∧ (finalNote 0).top ≤ 65535) :=
  ⟨by decide, best_fields_in_bounds 0 (by decide)⟩

/-- C7: for any state of the notes table, a note whose output frequency is
still the sentinel -1 is reported as a no-config line carrying that note's
index, and a line is still emitted for every one of the NOTE_CNT notes
(the run is never aborted). -/
theorem report_no_config (f : ℕ → Note) (i : ℕ) (hi : i < NOTE_CNT)
    (hs : (f i).out_freq = -1) :
    (reportLinesOf f).length = NOTE_CNT ∧
    (reportLinesOf f)[i]? = some (ReportLine.noConfig i) := by
  constructor
  · unfold reportLinesOf
    rw [List.length_map, List.length_range]
  · unfold reportLinesOf
    rw [List.getElem?_map, List.getElem?_range hi]
    simp [reportLine, hs]

theorem report_no_config_witness :
    (0 < NOTE_CNT ∧ (initNote 0).out_freq = -1) ∧
    ((reportLinesOf initNote).length = NOTE_CNT ∧
      (reportLinesOf initNote)[0]? = some (ReportLine.noConfig 0)) :=
  ⟨⟨by decide, rfl⟩, report_no_config initNote 0 (by decide) rfl⟩

/-- C8: the no-candidate case cannot occur: after the search every note's
output frequency differs from the sentinel -1 (indeed the very first
candidate's error is already below the sentinel error 9999999999), so the
no-config reporting branch is unreachable. -/
theorem no_config_unreachable (i : ℕ) (hi : i < 60) :
    (finalNote i).out_freq ≠ -1 ∧
    reportLine i (finalNote i) ≠ ReportLine.noConfig i ∧
    errOf (targetFreq i) (16, 0) < 9999999999 := by
  obtain ⟨⟨d, t⟩, hc, _, ho, _, _, _⟩ := finalNote_spec i hi
  obtain ⟨h1, _, _⟩ := (mem_candidates d t).mp hc
  have hpos : 0 < outFreq d t := outFreq_pos d t (by omega)
  have hne : (finalNote i).out_freq ≠ -1 := by
    rw [ho]
    intro hx
    rw [hx] at hpos
    norm_num at hpos
  refine ⟨hne, ?_, errOf_first_lt i hi⟩
  unfold reportLine
  rw [if_neg hne]
  intro hx
  simp at hx

theorem no_config_unreachable_witness :
    (0 < 60) ∧
    ((finalNote 0).out_freq ≠ -1 ∧
      reportLine 0 (finalNote 0) ≠ ReportLine.noConfig 0 ∧
      errOf (targetFreq 0) (16, 0) < 9999999999) :=
  ⟨by decide, no_config_unreachable 0 (by decide)⟩

/-- C9: the emitted table block carries the machine-generated comment
header and exactly one `(div, top)` pair per note (NOTE_CNT = 60 of them),
in note index order; an entry is followed by a comma iff it is not the
last, and by a line break iff its index is congruent to 6 mod 7 and it is
not the last. -/
theorem table_emission (i : ℕ) (hi : i < NOTE_CNT) :
    pwmBlock.header = "# This table is generated using genfreqs.c" ∧
    pwmBlock.items.length = NOTE_CNT ∧ NOTE_CNT = 60 ∧
    pwmBlock.items[i]? = some (tableItem i (finalNote i)) ∧
    (tableItem i (finalNote i)).pair = ((finalNote i).div, (finalNote i).top) ∧
    ((tableItem i (finalNote i)).comma = true ↔ i ≠ 59) ∧
    ((tableItem i (finalNote i)).brk = true ↔ i % 7 = 6 ∧ i ≠ 59) := by
  have hcnt : NOTE_CNT = 60 := rfl
  refine ⟨rfl, ?_, hcnt, ?_, rfl, ?_, ?_⟩
  · unfold pwmBlock
    rw [List.length_map, List.length_range]
  · unfold pwmBlock
    rw [List.getElem?_map, List.getElem?_range hi]
    rfl
  · unfold tableItem
    rw [decide_eq_true_iff]
    rw [hcnt] at hi
    unfold NOTE_CNT OCTAVES
    omega
  · unfold tableItem
    rw [Bool.and_eq_true, decide_eq_true_iff, decide_eq_true_iff]
    rw [hcnt] at hi
    unfold NOTE_CNT OCTAVES
    omega

theorem table_emission_witness :
    (0 < NOTE_CNT) ∧
    (pwmBlock.header = "# This table is generated using genfreqs.c" ∧
      pwmBlock.items.length = NOTE_CNT ∧ NOTE_CNT = 60 ∧
      pwmBlock.items[0]? = some (tableItem 0 (finalNote 0)) ∧
      (tableItem 0 (finalNote 0)).pair = ((finalNote 0).div, (finalNote 0).top) ∧
      ((tableItem 0 (finalNote 0)).comma = true ↔ 0 ≠ 59) ∧
      ((tableItem 0 (finalNote 0)).brk = true ↔ 0 % 7 = 6 ∧ 0 ≠ 59)) :=
  ⟨by decide, table_emission 0 (by decide)⟩

/-- C10: target frequencies strictly increase with the note index. -/
theorem targetFreq_strictMono (i j : ℕ) (hij : i < j) (_hj : j < 60) :
    targetFreq i < targetFreq j := by
  rw [targetFreq_eq, targetFreq_eq]
  have hcast : (i : ℝ) < (j : ℝ) := by exact_mod_cast hij
  have hexp : ((i : ℝ) - 24) / 12 < ((j : ℝ) - 24) / 12 := by linarith
  have hlt := (Real.rpow_lt_rpow_left_iff (show (1 : ℝ) < 2 by norm_num)).mpr hexp
  exact mul_lt_mul_of_pos_left hlt (by norm_num)

theorem targetFreq_strictMono_witness :
    (0 < 1 ∧ 1 < 60) ∧ targetFreq 0 < targetFreq 1 :=
  ⟨by decide, targetFreq_strictMono 0 1 (by decide) (by decide)⟩

end Genfreqs
